import Mathlib

/-!
Verification of `torch/utils/_benchmark/utils/timer.py` (adaptive micro-benchmark
harness) against its specification.

Shallow embedding conventions:
- Durations are modelled as exact rationals (`ℚ`); the timed callable is an
  oracle function.  For the measurement loop, whose time hook is called once
  per iteration, the oracle is indexed by the call number (`ℕ → ℚ`), covering
  every possible behaviour of the hook.  For the block-size estimator, whose
  callable receives a repetition count, the oracle maps repetition count to
  elapsed time (`ℕ → ℚ`).
- Python `while` loops are embedded as fuel-indexed recursion: `none` means the
  loop has not finished within the given number of iterations.
- Fallible operations return `Except PyErr` values; `PyErr` mirrors the Python
  exceptions that escape the source.
- The source's `float` arithmetic is idealised as exact rational arithmetic,
  except where a division by zero changes control flow: there the source's
  behaviour is modelled explicitly (plain Python floats raise
  `ZeroDivisionError`; the numpy scalar `overhead` divides to `inf`/`nan`
  without raising, and any comparison with `nan` is false).
-/

namespace TorchTimer

/-- Python exceptions that the modelled code can surface to the caller. -/
inductive PyErr where
  | invalidInput
  | notImplemented (msg : String)
  | zeroDivision
deriving DecidableEq

/-- Modelled from the spec: `common.Measurement`
(`torch/utils/_benchmark/utils/common.py` is not under `src/`; only its caller
`timer.py` is).  Spec §3 gives the data model: `number_per_run` is a positive
integer, `times` is the ordered sequence of per-sample durations; §7 classifies
`number < 1` for fixed-repetition timing as InvalidInput surfaced immediately
to the caller.  Only the fields the claims touch are modelled; the labelling
metadata and the post-hoc cache-speedup annotation play no role in any claim. -/
structure Measurement where
  number_per_run : ℤ
  times : List ℚ
deriving DecidableEq

/-- Modelled from the spec: construction of a `common.Measurement` enforcing
the spec §3 invariant `number_per_run ≥ 1` (violations are the spec §7
InvalidInput error). -/
def mkMeasurement (number_per_run : ℤ) (times : List ℚ) : Except PyErr Measurement :=
  if number_per_run < 1 then Except.error PyErr.invalidInput
  else Except.ok ⟨number_per_run, times⟩

/-- Embedding of `Timer.timeit` (timer.py lines 68-74): one warm-up call with
`max(int(number // 100), 1)` repetitions whose result is discarded, then a
single timed sample of `number` repetitions, wrapped into a measurement with
`number_per_run = number` and a one-element `times` list.  `timeF` is the
timed callable (`self._timer.timeit`), taking the repetition count.  Python's
`//` on ints is floor division (`Int.fdiv`). -/
def timeitStrategy (timeF : ℤ → ℚ) (number : ℤ) : Except PyErr Measurement :=
  let _warmup := timeF (max (Int.fdiv number 100) 1)
  mkMeasurement number [timeF number]

/-- Embedding of `Timer.repeat` (timer.py lines 76-77): unconditionally raises
`NotImplementedError`.  The timed callable is a parameter only to express that
the result never depends on it. -/
def repeatStrategy (timeF : ℤ → ℚ) (repeatN number : ℤ) : Except PyErr Measurement :=
  Except.error (PyErr.notImplemented ("See `Timer.blocked_autorange.`"))

/-- Embedding of `Timer.autorange` (timer.py lines 79-80): unconditionally
raises `NotImplementedError`. -/
def autorangeStrategy (timeF : ℤ → ℚ) (callback : Option Unit) : Except PyErr Measurement :=
  Except.error (PyErr.notImplemented ("See `Timer.blocked_autorange.`"))

/-- Embedding of the Python truthiness test `if max_run_time and total_time >
max_run_time` (timer.py line 95): `None` and `0.0` are falsy, every other
float is truthy. -/
def maxRunTimeExceeded : Option ℚ → ℚ → Bool
  | none, _ => false
  | some m, total => if m = 0 then false else decide (m < total)

/-- Embedding of the body of `Timer._threaded_measurement_loop` (timer.py
lines 82-97).  State: remaining fuel, index `i` of the next `time_hook` call,
`total` (= `total_time`), `times`, and `canStop` (= `can_stop`).  The source's
locals `time_spent`, the appended list and the updated total are inlined
(`timeHook i` stands for the single `time_hook()` call of the iteration).
The per-sample `callback` is a pure observer in the source (it cannot affect
control flow or the returned list) and is not modelled. -/
def measurementLoopAux (timeHook : ℕ → ℚ) (stopHook : List ℚ → Bool)
    (minRunTime : ℚ) (maxRunTime : Option ℚ) :
    ℕ → ℕ → ℚ → List ℚ → Bool → Option (List ℚ)
  | 0, _, _, _, _ => none
  | fuel + 1, i, total, times, canStop =>
    if total < minRunTime ∨ canStop = false then
      if maxRunTimeExceeded maxRunTime (total + timeHook i) = true then
        some (times ++ [timeHook i])
      else
        measurementLoopAux timeHook stopHook minRunTime maxRunTime fuel (i + 1)
          (total + timeHook i) (times ++ [timeHook i]) (stopHook (times ++ [timeHook i]))
    else some times

/-- Entry point of `Timer._threaded_measurement_loop`: `total_time = 0.0`,
`can_stop = False`, `times = []`. -/
def measurementLoopRun (timeHook : ℕ → ℚ) (stopHook : List ℚ → Bool)
    (minRunTime : ℚ) (maxRunTime : Option ℚ) (fuel : ℕ) : Option (List ℚ) :=
  measurementLoopAux timeHook stopHook minRunTime maxRunTime fuel 0 0 [] false

/-- Instrumented copy of `measurementLoopAux` that additionally records the
argument of every `stop_hook` invocation (timer.py line 94 calls
`stop_hook(times)` on every iteration, after appending the new sample).  The
returned pair is (collected times, chronological list of stop-hook call
arguments). -/
def measurementLoopTraceAux (timeHook : ℕ → ℚ) (stopHook : List ℚ → Bool)
    (minRunTime : ℚ) (maxRunTime : Option ℚ) :
    ℕ → ℕ → ℚ → List ℚ → Bool → List (List ℚ) → Option (List ℚ × List (List ℚ))
  | 0, _, _, _, _, _ => none
  | fuel + 1, i, total, times, canStop, calls =>
    if total < minRunTime ∨ canStop = false then
      if maxRunTimeExceeded maxRunTime (total + timeHook i) = true then
        some (times ++ [timeHook i], calls ++ [times ++ [timeHook i]])
      else
        measurementLoopTraceAux timeHook stopHook minRunTime maxRunTime fuel (i + 1)
          (total + timeHook i) (times ++ [timeHook i]) (stopHook (times ++ [timeHook i]))
          (calls ++ [times ++ [timeHook i]])
    else some (times, calls)

/-- Entry point of the instrumented measurement loop. -/
def measurementLoopTrace (timeHook : ℕ → ℚ) (stopHook : List ℚ → Bool)
    (minRunTime : ℚ) (maxRunTime : Option ℚ) (fuel : ℕ) :
    Option (List ℚ × List (List ℚ)) :=
  measurementLoopTraceAux timeHook stopHook minRunTime maxRunTime fuel 0 0 [] false []

/-- Embedding of the comparison `relative_overhead <= 1e-4` (timer.py lines
139-140).  `overhead` is a numpy scalar (the result of `np.median`), so
`overhead / time_taken` with `time_taken == 0.0` yields `inf` (positive
overhead), `-inf` (negative overhead) or `nan` (zero overhead) instead of
raising; `inf <= 1e-4` and `nan <= 1e-4` are false, `-inf <= 1e-4` is true.
For nonzero `time_taken` the comparison is the exact rational one. -/
def relOverheadLe (overhead t : ℚ) : Bool :=
  if t = 0 then decide (overhead < 0) else decide (overhead / t ≤ 1 / 10000)

/-- Result of `Timer._estimate_block_size`: either the pair
`(number, cache_speedup)` or the `ZeroDivisionError` raised by the plain-float
division `uncached_time / (time_taken / number)` (timer.py line 138) when
`time_taken` is `0.0`. -/
inductive EstimateResult where
  | ok (number : ℕ) (cacheSpeedup : ℚ)
  | zeroDivError
deriving DecidableEq

/-- Embedding of the `while True` loop of `Timer._estimate_block_size`
(timer.py lines 135-144).  `timeF n` is `self._timer.timeit(n)`; `overhead`
is the pre-computed median of five zero-repetition timings; `uncached` is the
`_measure_uncached_runtime` result; `checkCache` is `check_cache_speedup`.
When `checkCache` is set and `time_taken` is `0`, line 138 divides the plain
float `uncached_time` by `time_taken / number == 0.0` and raises
`ZeroDivisionError` before the overhead check on line 139 runs.  The locals
`time_taken` and `cache_speedup` are inlined. -/
def estimateLoopAux (timeF : ℕ → ℚ) (overhead uncached : ℚ) (checkCache : Bool)
    (minRunTime : ℚ) : ℕ → ℕ → Option EstimateResult
  | 0, _ => none
  | fuel + 1, number =>
    if checkCache = true ∧ timeF number = 0 then some EstimateResult.zeroDivError
    else if relOverheadLe overhead (timeF number) = true ∧ minRunTime / 1000 ≤ timeF number then
      some (EstimateResult.ok number
        (if checkCache = true then uncached / (timeF number / (number : ℚ)) else 0))
    else if minRunTime < timeF number then
      some (EstimateResult.ok number
        (if checkCache = true then uncached / (timeF number / (number : ℚ)) else 0))
    else estimateLoopAux timeF overhead uncached checkCache minRunTime fuel (number * 10)

/-- Entry point of `Timer._estimate_block_size`: the candidate block size
starts at `number = 1` (timer.py line 131). -/
def estimateBlockSize (timeF : ℕ → ℚ) (overhead uncached : ℚ) (checkCache : Bool)
    (minRunTime : ℚ) (fuel : ℕ) : Option EstimateResult :=
  estimateLoopAux timeF overhead uncached checkCache minRunTime fuel 1

/-- Embedding of `Timer.blocked_autorange` (timer.py lines 147-158) below the
block-size estimation: the estimator's `number` is a parameter (the claims
exercise this path with the estimator stubbed), the stop hook is the constant
`True` of lines 153-154, there is no `max_run_time`, and the collected times
are wrapped into a measurement with `number_per_run = number`.  The post-hoc
`set_cache_speedup` annotation touches no modelled field. -/
def blockedAutorangeFrom (number : ℕ) (timeHook : ℕ → ℚ) (minRunTime : ℚ)
    (fuel : ℕ) : Option (Except PyErr Measurement) :=
  (measurementLoopRun timeHook (fun _ => true) minRunTime none fuel).map
    (fun times => mkMeasurement (number : ℤ) times)

/-- Environment (`globals`) model for `Timer.__init__`: a Python dict is a
table mapping names to object references (addresses into a heap).  `dict(g)`
copies the table but not the referenced objects. -/
abbrev PyDict := List (String × ℕ)

/-- Key `"torch"`, the convenience binding `__init__` adds to its copy. -/
def torchKey : String := "torch"

/-- Embedding of timer.py lines 45-46: `globals = dict(globals or {})` (a
fresh table with the same name-to-object entries — a shallow copy; `None` and
the empty dict are both falsy) followed by `globals.setdefault("torch",
torch)`, with `torchAddr` the reference to the `torch` module object. -/
def timerGlobals (torchAddr : ℕ) (globals : Option PyDict) : PyDict :=
  if (List.lookup torchKey (globals.getD [])).isSome then globals.getD []
  else (torchKey, torchAddr) :: globals.getD []

/-- Heap update: in-place mutation of the object stored at address `a`. -/
def heapWrite (h : ℕ → ℤ) (a : ℕ) (v : ℤ) : ℕ → ℤ :=
  fun x => if x = a then v else h x

/-- Read the object bound to name `k` through dict `d` in heap `h`. -/
def readVar (d : PyDict) (h : ℕ → ℤ) (k : String) : Option ℤ :=
  (List.lookup k d).map h

/-- Mutate, through dict `d`, the object bound to name `k` (no-op when the
name is unbound). -/
def writeVar (d : PyDict) (h : ℕ → ℤ) (k : String) (v : ℤ) : ℕ → ℤ :=
  match List.lookup k d with
  | some a => heapWrite h a v
  | none => h

/-- Key `"x"`, used by the concrete aliasing scenarios. -/
def keyX : String := "x"

/-- Inversion of the early-exit test: when the source's line 95 breaks, a
`max_run_time` was supplied and the accumulated total exceeds it. -/
theorem maxRunTimeExceeded_spec {mx : Option ℚ} {x : ℚ}
    (h : maxRunTimeExceeded mx x = true) : ∃ m, mx = some m ∧ m < x := by
  cases mx with
  | none => simp [maxRunTimeExceeded] at h
  | some m =>
    refine ⟨m, rfl, ?_⟩
    by_cases hm : m = 0
    · simp [maxRunTimeExceeded, hm] at h
    · simpa [maxRunTimeExceeded, hm] using h

/-- Exit invariant of the measurement loop: any returned list satisfies the
stopping condition or the early-exit condition.  The invariants carried
through the induction are that `total` is the sum of the collected samples and
that `canStop` is the stop hook's verdict on them (or the initial `false`). -/
theorem measurementLoopAux_return (th : ℕ → ℚ) (sh : List ℚ → Bool) (minT : ℚ)
    (mx : Option ℚ) : ∀ (fuel i : ℕ) (total : ℚ) (times ts : List ℚ) (cs : Bool),
    measurementLoopAux th sh minT mx fuel i total times cs = some ts →
    total = times.sum → (cs = sh times ∨ cs = false) →
    (minT ≤ ts.sum ∧ sh ts = true) ∨ ∃ m, mx = some m ∧ m < ts.sum := by
  intro fuel
  induction fuel with
  | zero => intro i total times ts cs h _ _; simp [measurementLoopAux] at h
  | succ f ih =>
    intro i total times ts cs h htot hcs
    simp only [measurementLoopAux] at h
    by_cases hc : total < minT ∨ cs = false
    · rw [if_pos hc] at h
      by_cases hmx : maxRunTimeExceeded mx (total + th i) = true
      · rw [if_pos hmx] at h
        obtain ⟨m, hm, hlt⟩ := maxRunTimeExceeded_spec hmx
        have hts : times ++ [th i] = ts := Option.some.inj h
        right
        refine ⟨m, hm, ?_⟩
        rw [← hts, List.sum_append, List.sum_cons, List.sum_nil, ← htot]
        simpa using hlt
      · rw [if_neg hmx] at h
        refine ih (i + 1) (total + th i) (times ++ [th i]) ts _ h ?_ (Or.inl rfl)
        rw [List.sum_append, List.sum_cons, List.sum_nil, htot]
        ring
    · rw [if_neg hc] at h
      push_neg at hc
      obtain ⟨h1, h2⟩ := hc
      have hcst : cs = true := by
        cases cs
        · exact absurd rfl h2
        · rfl
      have hts : times = ts := Option.some.inj h
      left
      have hsh : sh ts = true := by
        rcases hcs with hcs | hcs
        · rw [hcst] at hcs
          rw [← hts, ← hcs]
        · rw [hcs] at hcst
          exact absurd hcst (by simp)
      exact ⟨by rw [← hts, ← htot]; exact h1, hsh⟩

/-- The measurement loop only extends the accumulated sample list. -/
theorem measurementLoopAux_length (th : ℕ → ℚ) (sh : List ℚ → Bool) (minT : ℚ)
    (mx : Option ℚ) : ∀ (fuel i : ℕ) (total : ℚ) (times ts : List ℚ) (cs : Bool),
    measurementLoopAux th sh minT mx fuel i total times cs = some ts →
    times.length ≤ ts.length := by
  intro fuel
  induction fuel with
  | zero => intro i total times ts cs h; simp [measurementLoopAux] at h
  | succ f ih =>
    intro i total times ts cs h
    simp only [measurementLoopAux] at h
    by_cases hc : total < minT ∨ cs = false
    · rw [if_pos hc] at h
      by_cases hmx : maxRunTimeExceeded mx (total + th i) = true
      · rw [if_pos hmx] at h
        have hts : times ++ [th i] = ts := Option.some.inj h
        rw [← hts]
        simp
      · rw [if_neg hmx] at h
        have := ih _ _ _ _ _ h
        simp only [List.length_append, List.length_cons, List.length_nil] at this
        omega
    · rw [if_neg hc] at h
      rw [Option.some.inj h]

/-- Results of the measurement loop depend on the stop hook only through its
verdicts on sample lists whose total already meets `min_run_time`: the loop
ignores the verdict while the floor is unmet. -/
theorem measurementLoopAux_congr (th : ℕ → ℚ) (sh1 sh2 : List ℚ → Bool)
    (minT : ℚ) (mx : Option ℚ)
    (hagree : ∀ ts, minT ≤ ts.sum → sh1 ts = sh2 ts) :
    ∀ (fuel i : ℕ) (total : ℚ) (times : List ℚ) (cs1 cs2 : Bool),
    total = times.sum → (minT ≤ total → cs1 = cs2) →
    measurementLoopAux th sh1 minT mx fuel i total times cs1 =
      measurementLoopAux th sh2 minT mx fuel i total times cs2 := by
  intro fuel
  induction fuel with
  | zero => intro i total times cs1 cs2 _ _; simp [measurementLoopAux]
  | succ f ih =>
    intro i total times cs1 cs2 htot hcs
    have hsum : total + th i = (times ++ [th i]).sum := by
      rw [List.sum_append, List.sum_cons, List.sum_nil, htot]
      ring
    have hstep : minT ≤ total + th i → sh1 (times ++ [th i]) = sh2 (times ++ [th i]) :=
      fun hle => hagree _ (hsum ▸ hle)
    by_cases hlt : total < minT
    · simp only [measurementLoopAux, if_pos (Or.inl hlt)]
      by_cases hmx : maxRunTimeExceeded mx (total + th i) = true
      · rw [if_pos hmx, if_pos hmx]
      · rw [if_neg hmx, if_neg hmx]
        exact ih (i + 1) (total + th i) (times ++ [th i]) _ _ hsum hstep
    · have hle : minT ≤ total := not_lt.mp hlt
      have hcseq : cs1 = cs2 := hcs hle
      subst hcseq
      by_cases hcf : cs1 = false
      · simp only [measurementLoopAux, if_pos (Or.inr hcf)]
        by_cases hmx : maxRunTimeExceeded mx (total + th i) = true
        · rw [if_pos hmx, if_pos hmx]
        · rw [if_neg hmx, if_neg hmx]
          exact ih (i + 1) (total + th i) (times ++ [th i]) _ _ hsum hstep
      · have hnc : ¬(total < minT ∨ cs1 = false) := by
          intro hor
          rcases hor with hor | hor
          · exact hlt hor
          · exact hcf hor
        simp only [measurementLoopAux, if_neg hnc]

/-- The instrumented loop collects the same sample list as the plain one. -/
theorem measurementLoopTraceAux_fst (th : ℕ → ℚ) (sh : List ℚ → Bool)
    (minT : ℚ) (mx : Option ℚ) :
    ∀ (fuel i : ℕ) (total : ℚ) (times : List ℚ) (cs : Bool) (calls : List (List ℚ)),
    (measurementLoopTraceAux th sh minT mx fuel i total times cs calls).map Prod.fst =
      measurementLoopAux th sh minT mx fuel i total times cs := by
  intro fuel
  induction fuel with
  | zero => intro i total times cs calls; simp [measurementLoopAux, measurementLoopTraceAux]
  | succ f ih =>
    intro i total times cs calls
    simp only [measurementLoopAux, measurementLoopTraceAux]
    by_cases hc : total < minT ∨ cs = false
    · rw [if_pos hc, if_pos hc]
      by_cases hmx : maxRunTimeExceeded mx (total + th i) = true
      · rw [if_pos hmx, if_pos hmx]
        simp
      · rw [if_neg hmx, if_neg hmx]
        exact ih (i + 1) (total + th i) (times ++ [th i]) _ _
    · rw [if_neg hc, if_neg hc]
      simp

/-- With cache checking off and a callable that always reports `0.0`, the
block-size estimation loop makes no progress: no amount of fuel makes it
return (every iteration fails both break conditions and multiplies `number`
by 10). -/
theorem estimateLoopAux_zero :
    ∀ (fuel n : ℕ), estimateLoopAux (fun _ => 0) 0 0 false (1/20) fuel n = none := by
  intro fuel
  induction fuel with
  | zero => intro n; rfl
  | succ f ih =>
    intro n
    simp only [estimateLoopAux]
    norm_num [relOverheadLe]
    exact ih (n * 10)

/-- Structure of every successful estimator run starting from candidate
`10 ^ k`: the returned `number` is a later power of ten, and when the measured
overhead is zero (and `min_run_time` positive) it is the first power of ten
whose sample time reaches `min_run_time / 1000`. -/
theorem estimateLoopAux_ok_shape (timeF : ℕ → ℚ) (o u : ℚ) (cc : Bool) (minT : ℚ) :
    ∀ (fuel k n : ℕ) (cs : ℚ),
    estimateLoopAux timeF o u cc minT fuel (10 ^ k) = some (EstimateResult.ok n cs) →
    ∃ j, k ≤ j ∧ n = 10 ^ j ∧
      (o = 0 → 0 < minT →
        minT / 1000 ≤ timeF (10 ^ j) ∧
        ∀ i, k ≤ i → i < j → timeF (10 ^ i) < minT / 1000) := by
  intro fuel
  induction fuel with
  | zero => intro k n cs h; simp [estimateLoopAux] at h
  | succ f ih =>
    intro k n cs h
    simp only [estimateLoopAux] at h
    by_cases hg : cc = true ∧ timeF (10 ^ k) = 0
    · rw [if_pos hg] at h
      exact absurd (Option.some.inj h) (by simp)
    · rw [if_neg hg] at h
      by_cases hc1 : relOverheadLe o (timeF (10 ^ k)) = true ∧ minT / 1000 ≤ timeF (10 ^ k)
      · rw [if_pos hc1] at h
        have hok := Option.some.inj h
        injection hok with h1 h2
        refine ⟨k, le_refl k, h1.symm, fun _ _ => ⟨hc1.2, fun i hki hik => ?_⟩⟩
        exact absurd hki (by omega)
      · rw [if_neg hc1] at h
        by_cases hc2 : minT < timeF (10 ^ k)
        · rw [if_pos hc2] at h
          have hok := Option.some.inj h
          injection hok with h1 h2
          refine ⟨k, le_refl k, h1.symm, fun ho hm => ⟨?_, fun i hki hik => ?_⟩⟩
          · exact le_of_lt (lt_trans (div_lt_self hm (by norm_num)) hc2)
          · exact absurd hki (by omega)
        · rw [if_neg hc2] at h
          rw [show (10:ℕ) ^ k * 10 = 10 ^ (k + 1) from (pow_succ 10 k).symm] at h
          obtain ⟨j, hkj, hn, hp⟩ := ih (k + 1) n cs h
          refine ⟨j, Nat.le_of_succ_le hkj, hn, fun ho hm => ?_⟩
          obtain ⟨hj1, hj2⟩ := hp ho hm
          refine ⟨hj1, fun i hki hij => ?_⟩
          rcases Nat.lt_or_ge i (k + 1) with hik | hik
          · have hik' : i = k := by omega
            subst hik'
            by_contra hcon
            push_neg at hcon
            apply hc1
            constructor
            · subst ho
              have hpos : 0 < timeF (10 ^ i) :=
                lt_of_lt_of_le (div_pos hm (by norm_num)) hcon
              rw [relOverheadLe, if_neg (ne_of_gt hpos)]
              simp only [decide_eq_true_eq, zero_div]
              norm_num
            · exact hcon
          · exact hj2 i hik hij

/-- Claim C1: for every time-hook, stop-hook, `min_run_time` and optional
`max_run_time`, the measurement loop returns only when the accumulated total
of sample durations is at least `min_run_time` and the stop-hook returned
true for the samples collected so far — except that when `max_run_time` is
supplied and the accumulated total exceeds it, the loop may return with
neither condition holding. -/
theorem C1_measurement_loop_return (th : ℕ → ℚ) (sh : List ℚ → Bool) (minT : ℚ)
    (mx : Option ℚ) (fuel : ℕ) (ts : List ℚ)
    (h : measurementLoopRun th sh minT mx fuel = some ts) :
    (minT ≤ ts.sum ∧ sh ts = true) ∨ ∃ m, mx = some m ∧ m < ts.sum :=
  measurementLoopAux_return th sh minT mx fuel 0 0 [] ts false h (by simp) (Or.inr rfl)

/-- Witness for C1: a constant 1-second hook with `min_run_time = 2` and an
always-true stop hook returns `[1, 1]`, which meets the exit condition. -/
theorem C1_measurement_loop_return_witness :
    ((2:ℚ) ≤ List.sum [(1:ℚ), 1] ∧ true = true) ∨
      ∃ m, (none : Option ℚ) = some m ∧ m < List.sum [(1:ℚ), 1] :=
  C1_measurement_loop_return (fun _ => 1) (fun _ => true) 2 none 5 [1, 1]
    (by norm_num [measurementLoopRun, measurementLoopAux, maxRunTimeExceeded])

/-- Claim C10: the measurement loop always takes at least one sample
(`can_stop` starts false, so the first check of the loop condition passes),
hence any returned `times` sequence is non-empty. -/
theorem C10_loop_nonempty (th : ℕ → ℚ) (sh : List ℚ → Bool) (minT : ℚ)
    (mx : Option ℚ) (fuel : ℕ) (ts : List ℚ)
    (h : measurementLoopRun th sh minT mx fuel = some ts) : ts ≠ [] := by
  cases fuel with
  | zero => simp [measurementLoopRun, measurementLoopAux] at h
  | succ f =>
    rw [measurementLoopRun] at h
    simp only [measurementLoopAux] at h
    rw [if_pos (Or.inr trivial)] at h
    by_cases hmx : maxRunTimeExceeded mx (0 + th 0) = true
    · rw [if_pos hmx] at h
      have hts := Option.some.inj h
      rw [← hts]
      simp
    · rw [if_neg hmx] at h
      have hlen := measurementLoopAux_length th sh minT mx f 1 (0 + th 0)
        ([] ++ [th 0]) ts _ h
      intro hnil
      rw [hnil] at hlen
      simp at hlen

/-- Witness for C10: the concrete run of the C1 scenario returns a non-empty
list. -/
theorem C10_loop_nonempty_witness : ([(1:ℚ), 1] : List ℚ) ≠ [] :=
  C10_loop_nonempty (fun _ => 1) (fun _ => true) 2 none 5 [1, 1]
    (by norm_num [measurementLoopRun, measurementLoopAux, maxRunTimeExceeded])

/-- Counterexample to claim C6: with a constant 1-second hook, an always-true
stop hook and `min_run_time = 3`, two samples are taken before the
cumulative-duration floor is reached (their totals 1 and 2 are below 3), yet
the invocation trace shows the stop-hook was called with `[1]` and `[1, 1]` —
the source calls `stop_hook(times)` on every iteration (line 94), not only
once the floor is met. -/
theorem C6_stop_hook_called_early_counterexample :
    measurementLoopTrace (fun _ => (1:ℚ)) (fun _ => true) 3 none 10 =
      some ([1, 1, 1], [[1], [1, 1], [1, 1, 1]]) ∧
    List.sum [(1:ℚ)] < 3 ∧ List.sum [(1:ℚ), 1] < 3 := by
  refine ⟨?_, by norm_num, by norm_num⟩
  norm_num [measurementLoopTrace, measurementLoopTraceAux, maxRunTimeExceeded]

/-- Claim C6 (amended): the stop-hook is invoked after every sample, including
those taken before the duration floor is met, but its verdict is only
consulted once `total_time ≥ min_run_time`: two stop-hooks that agree on every
sample list whose total meets `min_run_time` yield identical loop results. -/
theorem C6_stop_hook_consulted_after_floor (th : ℕ → ℚ) (sh1 sh2 : List ℚ → Bool)
    (minT : ℚ) (mx : Option ℚ) (fuel : ℕ)
    (hagree : ∀ ts, minT ≤ ts.sum → sh1 ts = sh2 ts) :
    measurementLoopRun th sh1 minT mx fuel = measurementLoopRun th sh2 minT mx fuel :=
  measurementLoopAux_congr th sh1 sh2 minT mx hagree fuel 0 0 [] false false
    (by simp) (fun _ => rfl)

/-- Witness for the amended C6: the always-true stop hook and the hook that is
true exactly once the floor is met drive the loop to the same result. -/
theorem C6_stop_hook_consulted_after_floor_witness :
    measurementLoopRun (fun _ => (1:ℚ)) (fun _ => true) 2 none 7 =
      measurementLoopRun (fun _ => (1:ℚ)) (fun ts => decide (2 ≤ ts.sum)) 2 none 7 :=
  C6_stop_hook_consulted_after_floor (fun _ => 1) (fun _ => true)
    (fun ts => decide (2 ≤ ts.sum)) 2 none 7 (fun ts h => (decide_eq_true h).symm)

/-- Claim C8: with the block-size estimator stubbed to `number = 1`, a
constant 0.01-second time hook, `min_run_time = 0.2` and no `max_run_time`,
fixed-duration block sampling collects exactly `ceil(0.2/0.01) = 20` samples
and the resulting record has `number_per_run = 1`. -/
theorem C8_blocked_autorange_scenario :
    blockedAutorangeFrom 1 (fun _ => 1/100) (1/5) 30 =
      some (Except.ok ⟨1, List.replicate 20 (1/100)⟩) ∧
    (List.replicate 20 ((1:ℚ)/100)).length = 20 := by
  constructor
  · norm_num [blockedAutorangeFrom, measurementLoopRun, measurementLoopAux,
      maxRunTimeExceeded, mkMeasurement, List.replicate]
  · simp

/-- Claim C9: the legacy entry points `repeat` and `autorange` fail for every
combination of arguments with an error directing the caller to
`blocked_autorange`, and their result never depends on the timed work (the
work is never run). -/
theorem C9_legacy_always_fail (timeF timeF' : ℤ → ℚ) (r n : ℤ) (cb : Option Unit) :
    repeatStrategy timeF r n =
      Except.error (PyErr.notImplemented ("See `Timer.blocked_autorange.`")) ∧
    autorangeStrategy timeF cb =
      Except.error (PyErr.notImplemented ("See `Timer.blocked_autorange.`")) ∧
    repeatStrategy timeF r n = repeatStrategy timeF' r n ∧
    autorangeStrategy timeF cb = autorangeStrategy timeF' cb :=
  ⟨rfl, rfl, rfl, rfl⟩

/-- Claim C2: the block-size estimation loop is claimed to terminate for every
behaviour of the timed callable, never divide by zero, and enforce a bound of
about 30 geometric steps.  The code does none of this: with a callable that
always reports `0.0` and cache checking off it runs 100 geometric growth steps
(far past 30) without terminating or failing, and with cache checking on (the
default for both public strategies) the very first iteration divides by zero
(timer.py line 138). -/
theorem C2_estimator_diverges_or_divides_by_zero :
    estimateBlockSize (fun _ => 0) 0 0 false (1/20) 100 = none ∧
    estimateBlockSize (fun _ => 0) 0 0 true (1/20) 1 =
      some EstimateResult.zeroDivError := by
  constructor
  · exact estimateLoopAux_zero 100 1
  · simp [estimateBlockSize, estimateLoopAux]

/-- Claim C3: fixed-repetition timing signals InvalidInput for `number < 1`
and for `number ≥ 1` returns a record with exactly one sample and
`number_per_run` equal to the given number. -/
theorem C3_timeit_validation (timeF : ℤ → ℚ) (number : ℤ) :
    (number < 1 → timeitStrategy timeF number = Except.error PyErr.invalidInput) ∧
    (1 ≤ number →
      timeitStrategy timeF number = Except.ok ⟨number, [timeF number]⟩ ∧
      [timeF number].length = 1) := by
  constructor
  · intro h
    simp [timeitStrategy, mkMeasurement, h]
  · intro h
    refine ⟨?_, rfl⟩
    simp only [timeitStrategy, mkMeasurement]
    rw [if_neg (not_lt.mpr h)]

/-- Witness for C3: `number = 0` is rejected, `number = 5` yields a
single-sample record. -/
theorem C3_timeit_validation_witness :
    timeitStrategy (fun _ => 0) 0 = Except.error PyErr.invalidInput ∧
    (timeitStrategy (fun _ => 0) 5 = Except.ok ⟨5, [0]⟩ ∧ [(0:ℚ)].length = 1) :=
  ⟨(C3_timeit_validation (fun _ => 0) 0).1 (by norm_num),
   (C3_timeit_validation (fun _ => 0) 5).2 (by norm_num)⟩

/-- Claim C4: when the measured overhead is exactly 0, the relative-overhead
computation raises no division fault and evaluates to 0, which satisfies the
1e-4 threshold and lets the estimator exit at `number = 1` provided
`time_taken(1) ≥ min_run_time / 1000`. -/
theorem C4_zero_overhead_exit (timeF : ℕ → ℚ) (u : ℚ) (cc : Bool) (minT : ℚ)
    (fuel : ℕ) (hm : 0 < minT) (h1 : minT / 1000 ≤ timeF 1) (hf : 1 ≤ fuel) :
    (0:ℚ) / timeF 1 = 0 ∧ relOverheadLe 0 (timeF 1) = true ∧
    ∃ cs, estimateBlockSize timeF 0 u cc minT fuel =
      some (EstimateResult.ok 1 cs) := by
  have hpos : 0 < timeF 1 := lt_of_lt_of_le (div_pos hm (by norm_num)) h1
  have hne : timeF 1 ≠ 0 := ne_of_gt hpos
  have hrel : relOverheadLe 0 (timeF 1) = true := by
    rw [relOverheadLe, if_neg hne]
    simp only [decide_eq_true_eq, zero_div]
    norm_num
  refine ⟨zero_div _, hrel, ?_⟩
  obtain ⟨f, rfl⟩ : ∃ f, fuel = f + 1 := ⟨fuel - 1, by omega⟩
  have hguard : ¬(cc = true ∧ timeF 1 = 0) := by simp [hne]
  have hstep : estimateBlockSize timeF 0 u cc minT (f + 1) =
      some (EstimateResult.ok 1
        (if cc = true then u / (timeF 1 / ((1:ℕ):ℚ)) else 0)) := by
    rw [estimateBlockSize]
    simp only [estimateLoopAux]
    rw [if_neg hguard, if_pos ⟨hrel, h1⟩]
  exact ⟨_, hstep⟩

/-- Witness for C4: a constant 1-second callable with `min_run_time = 1/2`
exits immediately at `number = 1`. -/
theorem C4_zero_overhead_exit_witness :
    (0:ℚ) / 1 = 0 ∧ relOverheadLe 0 1 = true ∧
    ∃ cs, estimateBlockSize (fun _ => 1) 0 0 false (1/2) 1 =
      some (EstimateResult.ok 1 cs) :=
  C4_zero_overhead_exit (fun _ => 1) 0 false (1/2) 1 (by norm_num) (by norm_num)
    (by norm_num)

/-- Claim C5: the estimator never returns `number < 1`; its candidates are the
powers of ten (1, 10, 100, …); and for a callable whose measured overhead is
0 (with positive `min_run_time`) it returns the first power of ten whose
sample time reaches `min_run_time / 1000`. -/
theorem C5_block_size_minimal (timeF : ℕ → ℚ) (o u : ℚ) (cc : Bool) (minT : ℚ)
    (fuel n : ℕ) (cs : ℚ)
    (h : estimateBlockSize timeF o u cc minT fuel = some (EstimateResult.ok n cs)) :
    1 ≤ n ∧ ∃ j, n = 10 ^ j ∧
      (o = 0 → 0 < minT →
        minT / 1000 ≤ timeF n ∧ ∀ i, i < j → timeF (10 ^ i) < minT / 1000) := by
  have h0 : estimateLoopAux timeF o u cc minT fuel (10 ^ 0) =
      some (EstimateResult.ok n cs) := by
    simpa [estimateBlockSize] using h
  obtain ⟨j, -, hn, hp⟩ := estimateLoopAux_ok_shape timeF o u cc minT fuel 0 n cs h0
  subst hn
  refine ⟨Nat.one_le_pow j 10 (by norm_num), j, rfl, fun ho hm => ?_⟩
  obtain ⟨h1, h2⟩ := hp ho hm
  exact ⟨h1, fun i hij => h2 i (Nat.zero_le i) hij⟩

/-- Witness for C5: a constant 1/1000-second callable with
`min_run_time = 1/10` yields `number = 1 = 10 ^ 0`, whose sample time meets
the `min_run_time / 1000` floor. -/
theorem C5_block_size_minimal_witness :
    1 ≤ 1 ∧ ∃ j, 1 = 10 ^ j ∧
      ((0:ℚ) = 0 → (0:ℚ) < 1/10 →
        (1:ℚ)/10/1000 ≤ (1:ℚ)/1000 ∧
        ∀ i, i < j → (1:ℚ)/1000 < (1:ℚ)/10/1000) :=
  C5_block_size_minimal (fun _ => 1/1000) 0 0 false (1/10) 5 1 0
    (by norm_num [estimateBlockSize, estimateLoopAux, relOverheadLe])

/-- Counterexample to claim C7: the environment is not deep-copied.  With a
caller dict binding `x` to the object at address 0, mutating that object
through the Timer's copy of the dict is visible when reading `x` through the
caller's own dict (the copy shares the underlying objects). -/
theorem C7_globals_deep_copy_counterexample :
    readVar [(keyX, 0)]
        (writeVar (timerGlobals 100 (some [(keyX, 0)])) (fun _ => 0) keyX 5)
        keyX = some 5 ∧
    readVar [(keyX, 0)] (fun _ => (0:ℤ)) keyX = some 0 := by
  constructor <;> rfl

/-- Claim C7 (amended): `Timer.__init__` makes a shallow copy of `globals`
(`dict(globals or {})`): the copy is a separate key table, but every existing
key keeps the same object reference, so in-place mutation of a stored object
performed through one mapping is visible through the other.  Only key-level
isolation holds. -/
theorem C7_globals_shallow_copy (torchA : ℕ) (g : PyDict) (k : String) (a : ℕ)
    (hp : ℕ → ℤ) (v : ℤ) (h : List.lookup k g = some a) :
    List.lookup k (timerGlobals torchA (some g)) = some a ∧
    readVar g (heapWrite hp a v) k = some v ∧
    readVar (timerGlobals torchA (some g)) (heapWrite hp a v) k = some v := by
  have hcopy : List.lookup k (timerGlobals torchA (some g)) = some a := by
    rw [timerGlobals]
    simp only [Option.getD_some]
    by_cases ht : (List.lookup torchKey g).isSome
    · rw [if_pos ht]
      exact h
    · rw [if_neg ht]
      have hk : (k == torchKey) = false := by
        apply beq_eq_false_iff_ne.mpr
        intro he
        subst he
        simp [h] at ht
      simp [List.lookup, hk, h]
  refine ⟨hcopy, ?_, ?_⟩
  · rw [readVar, h]
    simp [heapWrite]
  · rw [readVar, hcopy]
    simp [heapWrite]

/-- Witness for the amended C7: concrete instantiation with `x` bound at
address 3 and a write of 7 through the shared reference. -/
theorem C7_globals_shallow_copy_witness :
    List.lookup keyX (timerGlobals 100 (some [(keyX, 3)])) = some 3 ∧
    readVar [(keyX, 3)] (heapWrite (fun _ => 0) 3 7) keyX = some 7 ∧
    readVar (timerGlobals 100 (some [(keyX, 3)])) (heapWrite (fun _ => 0) 3 7)
      keyX = some 7 :=
  C7_globals_shallow_copy 100 [(keyX, 3)] keyX 3 (fun _ => 0) 7 rfl

end TorchTimer
